import Mathlib

/-!
Verification development for the `efd_mods_counter` repository
(`src/main/efd_mods_counter.py`, `src/main/sms_util.py`).

Shallow embedding notes:
* Python `datetime` values that reach the ledger are modelled by their
  Beijing-timezone calendar day (`Date` below); `ensure_excel_row` receives
  `get_beijing_now()` and immediately reduces it to the `YYYY/MM/DD` string
  via `get_date_str`, and cell comparison in both ledger functions uses only
  `strftime("%Y/%m/%d")`, so the time-of-day component is irrelevant.
* `datetime.strptime(s, "%Y/%m/%d")` is modelled faithfully to CPython's
  `_strptime`: the year is exactly four digits, month and day are one- or
  two-digit runs within range, the whole string must be consumed, and the
  resulting triple must be a real calendar date (month length, leap years).
  The regex alternations for month and day consume maximal digit runs of
  bounded length; because every alternative is followed by a non-digit
  (`/` or end of string), maximal-munch run splitting is equivalent.
* `datetime.fromisoformat` is modelled on its date-only form
  `YYYY-MM-DD` (zero-padded, dashed); none of the claims exercises other
  accepted ISO shapes, and both ledger functions share this model.
* Digits are ASCII digits throughout, matching the inputs the program
  produces and compares.
-/

/-- Calendar date: the Beijing-timezone day used as the ledger key. -/
structure Date where
  year : Nat
  month : Nat
  day : Nat
deriving DecidableEq, Repr

/-- Gregorian leap-year rule, as implemented by Python `datetime`. -/
def isLeap (y : Nat) : Bool :=
  y % 4 = 0 && (y % 100 != 0 || y % 400 = 0)

/-- Number of days in a month, as validated by Python `datetime`. -/
def daysInMonth (y m : Nat) : Nat :=
  if m = 2 then (if isLeap y then 29 else 28)
  else if m = 4 ∨ m = 6 ∨ m = 9 ∨ m = 11 then 30
  else 31

/-- A date representable by Python `datetime` whose `%Y` rendering is four
digits, i.e. the dates the running program can ever produce via
`get_beijing_now()`. -/
def ValidDate (d : Date) : Prop :=
  1000 ≤ d.year ∧ d.year ≤ 9999 ∧
  1 ≤ d.month ∧ d.month ≤ 12 ∧
  1 ≤ d.day ∧ d.day ≤ daysInMonth d.year d.month

instance (d : Date) : Decidable (ValidDate d) := by
  unfold ValidDate; infer_instance

/-- Is `c` an ASCII digit. -/
def isDig (c : Char) : Bool :=
  48 ≤ c.toNat && c.toNat ≤ 57

/-- Numeric value of an ASCII digit character. -/
def charVal (c : Char) : Nat := c.toNat - 48

/-- Leading run of ASCII digits and the remainder of the character list. -/
def takeDigits : List Char → List Char × List Char
  | [] => ([], [])
  | c :: cs =>
    if isDig c then
      let p := takeDigits cs
      (c :: p.1, p.2)
    else ([], c :: cs)

/-- Value of a digit run, most significant first. -/
def digitsVal (l : List Char) : Nat :=
  l.foldl (fun acc c => 10 * acc + charVal c) 0

/-- The two zero-padded digit characters of `n < 100`
(`strftime` `%m` / `%d`). -/
def digits2 (n : Nat) : List Char :=
  [Nat.digitChar (n / 10 % 10), Nat.digitChar (n % 10)]

/-- The four digit characters of `1000 ≤ n ≤ 9999` (`strftime` `%Y`). -/
def digits4 (n : Nat) : List Char :=
  [Nat.digitChar (n / 1000 % 10), Nat.digitChar (n / 100 % 10),
   Nat.digitChar (n / 10 % 10), Nat.digitChar (n % 10)]

/-- Character list of `get_date_str`: `strftime("%Y/%m/%d")`. -/
def fmtChars (d : Date) : List Char :=
  digits4 d.year ++ '/' :: (digits2 d.month ++ '/' :: digits2 d.day)

/-- `get_date_str`: the canonical `YYYY/MM/DD` rendering of a date
(the program always calls it on Beijing-time `datetime` values). -/
def get_date_str (d : Date) : String := ⟨fmtChars d⟩

/-- Split a character list into the three digit runs of a
`<digits>/<digits>/<digits>` shape (whole-string match). -/
def splitRuns (l : List Char) : Option (List Char × List Char × List Char) :=
  match takeDigits l with
  | (yrun, '/' :: r1) =>
    match takeDigits r1 with
    | (mrun, '/' :: r2) =>
      match takeDigits r2 with
      | (drun, []) => some (yrun, mrun, drun)
      | _ => none
    | _ => none
  | _ => none

/-- Range and calendar checks performed by `strptime("%Y/%m/%d")` plus the
`datetime` constructor: four year digits, month and day runs of one or two
digits within 1..12 / 1..31, year at least `MINYEAR`, and a real day of the
month. -/
def assembleYmd (yrun mrun drun : List Char) : Option Date :=
  let y := digitsVal yrun
  let m := digitsVal mrun
  let dd := digitsVal drun
  if yrun.length = 4 && 1 ≤ mrun.length && mrun.length ≤ 2 && 1 ≤ m && m ≤ 12 &&
     1 ≤ drun.length && drun.length ≤ 2 && 1 ≤ dd && dd ≤ 31 && 1 ≤ y &&
     dd ≤ daysInMonth y m then
    some ⟨y, m, dd⟩
  else none

/-- `datetime.strptime(s, "%Y/%m/%d")`, returning `none` where Python
raises `ValueError`. -/
def strptime_Ymd (s : String) : Option Date :=
  match splitRuns s.toList with
  | some (yrun, mrun, drun) => assembleYmd yrun mrun drun
  | none => none

/-- `datetime.fromisoformat`, modelled on its date-only `YYYY-MM-DD` form
(zero-padded, dashed), returning `none` where Python raises. -/
def fromisoformat (s : String) : Option Date :=
  match s.toList with
  | [y1, y2, y3, y4, d1, m1, m2, d2, a1, a2] =>
    if isDig y1 && isDig y2 && isDig y3 && isDig y4 && d1 = '-' &&
       isDig m1 && isDig m2 && d2 = '-' && isDig a1 && isDig a2 then
      let y := ((charVal y1 * 10 + charVal y2) * 10 + charVal y3) * 10 + charVal y4
      let m := charVal m1 * 10 + charVal m2
      let dd := charVal a1 * 10 + charVal a2
      if 1 ≤ y && 1 ≤ m && m ≤ 12 && 1 ≤ dd && dd ≤ daysInMonth y m then
        some ⟨y, m, dd⟩
      else none
    else none
  | _ => none

/-!
## Ledger data model

A worksheet data row (rows 2..max_row of the Excel sheet; the header row is
not part of the model since neither ledger operation reads it). openpyxl
cell values relevant to this program are native datetimes (modelled by their
calendar day), strings, integers, or empty cells (Python `None`).
-/

/-- An openpyxl cell value as this program can observe it. -/
inductive CellVal where
  | date (d : Date)
  | str (s : String)
  | int (n : Int)
  | blank
deriving DecidableEq, Repr

/-- One data row of the ledger sheet: `Date, Game, ModCount` columns. -/
structure Row where
  c1 : CellVal
  c2 : CellVal
  c3 : CellVal
deriving DecidableEq, Repr

/-- Python `str()` of a cell value. For native datetimes Python renders
`YYYY-MM-DD HH:MM:SS`; both ledger functions test `isinstance(..., datetime)`
first, so that rendering is never consulted and the modelled time-of-day
`00:00:00` is irrelevant. -/
def pyStr : CellVal → String
  | .str s => s
  | .int n => toString n
  | .date d => ⟨digits4 d.year ++ '-' :: (digits2 d.month ++ '-' :: digits2 d.day) ++ " 00:00:00".toList⟩
  | .blank => "None"

/-- The `parsed_date` computation duplicated at
`efd_mods_counter.py:193-202` (inside `ensure_excel_row`): native date,
else `strptime("%Y/%m/%d")`, else `fromisoformat`, else `None`. -/
def parsedDate_ensure (c : CellVal) : Option Date :=
  match c with
  | .date d => some d
  | c =>
    match strptime_Ymd (pyStr c) with
    | some d => some d
    | none =>
      match fromisoformat (pyStr c) with
      | some d => some d
      | none => none

/-- `cmp_str` at `efd_mods_counter.py:204`: the canonical rendering of the
parsed date, else the raw cell text verbatim. -/
def cmp_str_ensure (c : CellVal) : String :=
  match parsedDate_ensure c with
  | some d => get_date_str d
  | none => pyStr c

/-- The `parsed_date` computation duplicated at
`efd_mods_counter.py:264-274` (inside `get_yesterday_count`). -/
def parsedDate_lookup (c : CellVal) : Option Date :=
  match c with
  | .date d => some d
  | c =>
    match strptime_Ymd (pyStr c) with
    | some d => some d
    | none =>
      match fromisoformat (pyStr c) with
      | some d => some d
      | none => none

/-- `cmp_str` at `efd_mods_counter.py:276`. -/
def cmp_str_lookup (c : CellVal) : String :=
  match parsedDate_lookup c with
  | some d => get_date_str d
  | none => pyStr c

/-- Persisted ledger backend: the Excel file may be absent (first run),
unreadable/corrupt (`load_workbook` raises), or a loaded sheet. -/
inductive Backend where
  | absent
  | corrupt
  | good (rows : List Row)
deriving DecidableEq, Repr

/-- `get_game_name_cn()`: the game-name string built from Unicode
code points (逃离鸭科夫). -/
def CN (l : List Nat) : String := ⟨l.map Char.ofNat⟩

def game_name_cn : String := CN [0x9003, 0x79BB, 0x9E2D, 0x79D1, 0x592B]

/-- Row-match test of the `ensure_excel_row` scan loop
(`efd_mods_counter.py:188-205`): empty date cells are skipped, otherwise
the normalized cell text is compared with the target date string. -/
def rowMatches (ds : String) (r : Row) : Bool :=
  match r.c1 with
  | .blank => false
  | c => cmp_str_ensure c == ds

/-- Overwriting the count column in place (`efd_mods_counter.py:206`). -/
def setCount (r : Row) (cnt : Int) : Row := { r with c3 := .int cnt }

/-- The scan-and-overwrite loop of `ensure_excel_row`
(`efd_mods_counter.py:187-210`): update the first matching row in place and
stop, or report `none` when no row matches. -/
def updateFirst (ds : String) (cnt : Int) : List Row → Option (List Row)
  | [] => none
  | r :: rs =>
    if rowMatches ds r then some (setCount r cnt :: rs)
    else
      match updateFirst ds cnt rs with
      | some rs2 => some (r :: rs2)
      | none => none

/-- The row appended by `ensure_excel_row`
(`efd_mods_counter.py:213` and `:239`). -/
def mkRow (ds : String) (cnt : Int) : Row := ⟨.str ds, .str game_name_cn, .int cnt⟩

/-- Effect of `ensure_excel_row` on the data rows of an existing sheet:
overwrite the first row whose cell normalizes to `ds`, else append. -/
def upsertRows (ds : String) (cnt : Int) (rows : List Row) : List Row :=
  match updateFirst ds cnt rows with
  | some rows2 => rows2
  | none => rows ++ [mkRow ds cnt]

/-- `ensure_excel_row(excel_path, date, count)` (`efd_mods_counter.py:166-248`)
as a state transformer on the backend. Column widths, alignment and the
header styling are cosmetic and not modelled. A raised exception
(e.g. `load_workbook` failing on a corrupt file) is an `Except.error`. -/
def ensure_excel_row (b : Backend) (d : Date) (cnt : Int) : Except String Backend :=
  match b with
  | .corrupt => .error "load_workbook raised"
  | .good rows => .ok (.good (upsertRows (get_date_str d) cnt rows))
  | .absent => .ok (.good [mkRow (get_date_str d) cnt])

/-- ASCII whitespace, as stripped by Python `str.strip` / `int()`. -/
def isWs' (c : Char) : Bool :=
  c = ' ' || c = '\t' || c = '\n' || c = '\r' || c.toNat = 11 || c.toNat = 12

/-- Python `int(s)` on a string: optional surrounding whitespace, optional
sign, a nonempty digit run (digit-group underscores are not modelled; the
program never writes them). -/
def parseIntStr (s : String) : Option Int :=
  match (s.toList.dropWhile isWs').reverse.dropWhile isWs' |>.reverse with
  | [] => none
  | c :: cs =>
    if c = '+' then
      if cs ≠ [] ∧ cs.all isDig then some (digitsVal cs) else none
    else if c = '-' then
      if cs ≠ [] ∧ cs.all isDig then some (-(digitsVal cs : Int)) else none
    else
      if (c :: cs).all isDig then some (digitsVal (c :: cs)) else none

/-- Python `int(val)` on a cell value; `none` where Python raises. -/
def pyToInt : CellVal → Option Int
  | .int n => some n
  | .str s => parseIntStr s
  | .date _ => none
  | .blank => none

/-- Row-match test of the `get_yesterday_count` scan loop: empty date cells
are skipped (`continue`), otherwise the normalized cell text is compared
with the target date string. -/
def rowMatchesL (target : String) (r : Row) : Bool :=
  match r.c1 with
  | .blank => false
  | c => cmp_str_lookup c == target

/-- Result returned by `get_yesterday_count` on a matching row:
`(parsed_date, int(val))`, with an `int()` failure yielding `None`
(the inner try/except at `efd_mods_counter.py:280-283`). -/
def lookupHit (r : Row) : Option (Option Date × Int) :=
  match pyToInt r.c3 with
  | some n => some (parsedDate_lookup r.c1, n)
  | none => none

/-- The targeted scan of `get_yesterday_count`
(`efd_mods_counter.py:259-285`): return the hit for the first row whose
date cell normalizes to the target, else `None` after the loop. -/
def lookupTarget (target : String) : List Row → Option (Option Date × Int)
  | [] => none
  | r :: rs =>
    if rowMatchesL target r then lookupHit r else lookupTarget target rs

/-- The legacy last-row branch of `get_yesterday_count`
(`efd_mods_counter.py:287-311`), used only when no target date is given. -/
def lookupLast (rows : List Row) : Option (Option Date × Int) :=
  match rows.getLast? with
  | none => none
  | some r =>
    if r.c3 = CellVal.blank ∨ r.c3 = CellVal.str "" then none
    else
      match pyToInt r.c3 with
      | some n => some (parsedDate_lookup r.c1, n)
      | none => none

/-- `get_yesterday_count(excel_path, target_date_str)`
(`efd_mods_counter.py:250-313`). An absent file returns `None`; any
exception while reading (corrupt backend) is swallowed by the blanket
`except Exception` and also returns `None`. The branch test
`if target_date_str:` at line 259 is Python truthiness, so both a missing
target AND an empty-string target take the legacy last-row branch; only a
nonempty target runs the strict scan. -/
def get_yesterday_count (b : Backend) (target : Option String) : Option (Option Date × Int) :=
  match b with
  | .absent => none
  | .corrupt => none
  | .good rows =>
    match target with
    | some t => if t = "" then lookupLast rows else lookupTarget t rows
    | none => lookupLast rows

/-- Canonical-date key of a data row: `none` for an empty date cell (such
rows are skipped by the scan loops), else the normalized comparison string. -/
def rowKey (r : Row) : Option String :=
  match r.c1 with
  | .blank => none
  | c => some (cmp_str_ensure c)

/-- The spec's ledger uniqueness invariant: every canonical date occurs in
at most one data row. -/
def UniqueDates (rows : List Row) : Prop := (rows.filterMap rowKey).Nodup

instance (rows : List Row) : Decidable (UniqueDates rows) := by
  unfold UniqueDates; infer_instance

/-!
## Extractor: `parse_workshop_mod_count` (`efd_mods_counter.py:141-153`)

The three case-insensitive regular expressions are embedded as deterministic
leftmost matchers. Every quantified sub-pattern (`\s+`, `\s*`, `\d+`,
`[\d,\.]+`, `(?:-\d+)?`) is followed in its pattern by a character disjoint
from the quantified class, so maximal-munch matching is equivalent to the
backtracking regex semantics. `\s` and `\d` are modelled as ASCII.
-/

/-- Whether `c` belongs to the captured class `[\d,\.]`. -/
def isNumCls (c : Char) : Bool := isDig c || c = ',' || c = '.'

/-- Case-insensitive literal match; returns the remaining input. -/
def litMatch : List Char → List Char → Option (List Char)
  | [], s => some s
  | _ :: _, [] => none
  | a :: as, b :: bs => if a.toLower = b.toLower then litMatch as bs else none

/-- `\s+`: at least one whitespace character, consumed maximally. -/
def wsPlus (s : List Char) : Option (List Char) :=
  match s with
  | c :: cs => if isWs' c then some (cs.dropWhile isWs') else none
  | [] => none

/-- `([\d,\.]+)`: the captured run and the remaining input. -/
def clsPlus (s : List Char) : Option (List Char × List Char) :=
  let run := s.takeWhile isNumCls
  if run.isEmpty then none else some (run, s.dropWhile isNumCls)

/-- `\d+`: at least one digit, consumed maximally. -/
def digPlus (s : List Char) : Option (List Char) :=
  let run := s.takeWhile isDig
  if run.isEmpty then none else some (s.dropWhile isDig)

/-- `(?:-\d+)?`: an optional dash-digits group. Leaving a leading dash
unconsumed always fails at the following `\s+`, so consuming greedily is
equivalent. -/
def optDashDigits (s : List Char) : List Char :=
  match s with
  | '-' :: rest =>
    let run := rest.takeWhile isDig
    if run.isEmpty then '-' :: rest else rest.dropWhile isDig
  | _ => s

/-- A double or single quote, `["\']`. -/
def isQuote (c : Char) : Bool := c.toNat = 34 || c.toNat = 39

/-- Pattern 1 anchored at the start of `s`:
`See\s+all\s+([\d,\.]+)\s+Mods`; returns the capture. -/
def pat1At (s : List Char) : Option (List Char) :=
  (litMatch "see".toList s).bind fun r1 =>
  (wsPlus r1).bind fun r2 =>
  (litMatch "all".toList r2).bind fun r3 =>
  (wsPlus r3).bind fun r4 =>
  (clsPlus r4).bind fun pr =>
  (wsPlus pr.2).bind fun r5 =>
  (litMatch "mods".toList r5).map fun _ => pr.1

/-- Pattern 2 anchored at the start of `s`:
`Showing\s+\d+(?:-\d+)?\s+of\s+([\d,\.]+)\s+entries`. -/
def pat2At (s : List Char) : Option (List Char) :=
  (litMatch "showing".toList s).bind fun r1 =>
  (wsPlus r1).bind fun r2 =>
  (digPlus r2).bind fun r3 =>
  (wsPlus (optDashDigits r3)).bind fun r4 =>
  (litMatch "of".toList r4).bind fun r5 =>
  (wsPlus r5).bind fun r6 =>
  (clsPlus r6).bind fun pr =>
  (wsPlus pr.2).bind fun r7 =>
  (litMatch "entries".toList r7).map fun _ => pr.1

/-- Pattern 3 anchored at the start of `s`:
`id=["\']searchResults_total["\']>\s*([\d,\.]+)\s*<`. -/
def pat3At (s : List Char) : Option (List Char) :=
  (litMatch "id=".toList s).bind fun r1 =>
  match r1 with
  | q1 :: r2 =>
    if isQuote q1 then
      (litMatch "searchResults_total".toList r2).bind fun r3 =>
      match r3 with
      | q2 :: r4 =>
        if isQuote q2 then
          match r4 with
          | '>' :: r5 =>
            (clsPlus (r5.dropWhile isWs')).bind fun pr =>
            match pr.2.dropWhile isWs' with
            | '<' :: _ => some pr.1
            | _ => none
          | _ => none
        else none
      | _ => none
    else none
  | [] => none

/-- `re.search`: try the anchored matcher at every position, leftmost
first. -/
def searchPat (m : List Char → Option (List Char)) : List Char → Option (List Char)
  | [] => m []
  | c :: cs =>
    match m (c :: cs) with
    | some cap => some cap
    | none => searchPat m cs

/-- `re.sub(r'[^\d]', '', g)`: strip every non-digit from the capture. -/
def stripNonDigits (cap : List Char) : List Char := cap.filter isDig

/-- The pattern loop of `parse_workshop_mod_count`: on a match, strip
non-digits; if any digit remains convert and return, otherwise fall through
to the next pattern. -/
def parseLoop : List (List Char → Option (List Char)) → List Char → Option Nat
  | [], _ => none
  | p :: ps, l =>
    match searchPat p l with
    | some cap =>
      if (stripNonDigits cap).isEmpty then parseLoop ps l
      else some (digitsVal (stripNonDigits cap))
    | none => parseLoop ps l

/-- `parse_workshop_mod_count(html)`; `none` models the raised
`ValueError('Failed to parse MOD total from Workshop page.')`. -/
def parse_workshop_mod_count (html : String) : Option Nat :=
  parseLoop [pat1At, pat2At, pat3At] html.toList

/-- `re.search` of the first pattern over the whole text. -/
def search_pat1 (html : String) : Option (List Char) := searchPat pat1At html.toList

/-- `re.search` of the second pattern over the whole text. -/
def search_pat2 (html : String) : Option (List Char) := searchPat pat2At html.toList

/-- `re.search` of the third pattern over the whole text. -/
def search_pat3 (html : String) : Option (List Char) := searchPat pat3At html.toList

/-!
## DeltaReporter: the notification message built in `main`
(`efd_mods_counter.py:373-401`)

The Chinese fragments are reproduced from the `CN(...)` code-point
sequences and f-string literals of the source.
-/

def cn_comma : String := CN [0xFF0C]

def cn_excl : String := CN [0xFF01]

def cn_lparen : String := CN [0xFF08]

def cn_rparen : String := CN [0xFF09]

def cn_workshop : String := CN [0x521B, 0x610F, 0x5DE2, 0x574A]

def cn_market : String := CN [0x5E02, 0x573A]

def cn_of : String := CN [0x7684]

def cn_total_num_is : String := CN [0x603B, 0x6570, 0x91CF, 0x4E3A]

def cn_unit : String := CN [0x4E2A]

def cn_yesterday : String := CN [0x6BD4, 0x6628, 0x5929]

def cn_more : String := CN [0x591A, 0x4E0A, 0x4E86]

def cn_less : String := CN [0x51CF, 0x5C11, 0x4E86]

def cn_hao : String := CN [0x53F7]

/-- `f"《{cn_game}》"`: the quoted game name. -/
def game_quoted : String := CN [0x300A] ++ game_name_cn ++ CN [0x300B]

/-- `f"{today_dt.year}年{today_dt.month}月{today_dt.day}日"`. -/
def cn_today_str (d : Date) : String :=
  toString d.year ++ CN [0x5E74] ++ toString d.month ++ CN [0x6708] ++
  toString d.day ++ CN [0x65E5]

/-- The `prefix` string of `main` (`efd_mods_counter.py:390`): date, quoted
game name, "workshop market mod total is", count, unit. -/
def msg_head (today : Date) (count : Int) : String :=
  cn_today_str today ++ cn_comma ++ game_quoted ++ cn_workshop ++ cn_market ++
  cn_of ++ "Mod" ++ cn_total_num_is ++ toString count ++ cn_unit

/-- The full notification message (`efd_mods_counter.py:392-401`):
with a yesterday count, an increase clause when `diff >= 0` and a decrease
clause with `|diff|` otherwise; without one, just the head and the
exclamation mark. `yesterdayDay` is `yesterday_dt.day`. -/
def build_msg (today : Date) (yesterdayDay : Nat) (count : Int)
    (ycount : Option Int) : String :=
  match ycount with
  | some y =>
    if 0 ≤ count - y then
      msg_head today count ++ cn_comma ++ cn_yesterday ++ toString yesterdayDay ++
      cn_hao ++ cn_lparen ++ toString y ++ cn_unit ++ cn_rparen ++ cn_more ++
      toString (count - y) ++ cn_unit ++ cn_excl
    else
      msg_head today count ++ cn_comma ++ cn_yesterday ++ toString yesterdayDay ++
      cn_hao ++ cn_lparen ++ toString y ++ cn_unit ++ cn_rparen ++ cn_less ++
      toString (-(count - y)) ++ cn_unit ++ cn_excl
  | none => msg_head today count ++ cn_excl

/-- Substring relation used to state message-content facts. -/
def IsSub (needle hay : String) : Prop := ∃ a b, hay = a ++ needle ++ b

/-!
## Error propagation in `main` (`efd_mods_counter.py:342-431`)

`main` wraps the whole pipeline in try/except: any exception is converted
into a failure toast, a line on stderr, and exit code 1.
-/

/-- The ledger phase of `main` on backend `b`: look up yesterday (never
raises — its internal try/except returns `None` instead), then upsert
today. An exception from the upsert is caught by `main`'s handler, which
sends the failure toast, prints to stderr and returns exit code 1
(`efd_mods_counter.py:427-431`). Returns (exit code, failure toast sent). -/
def run_main_ledger (b : Backend) (today yesterday : Date) (count : Int) :
    Nat × Bool :=
  let _yinfo := get_yesterday_count b (some (get_date_str yesterday))
  match ensure_excel_row b today count with
  | .ok _ => (0, false)
  | .error _ => (1, true)

/-!
## Bulk SMS recipients (`sms_util.py:33-54`, `sms_util.py:104-142`)
-/

/-- Python `str.strip()` (ASCII whitespace suffices for the claims). -/
def stripWs (s : String) : String :=
  ⟨(s.toList.dropWhile isWs').reverse.dropWhile isWs' |>.reverse⟩

/-- `''.join(filter(str.isdigit, line))`. -/
def cleanDigits (s : String) : String := ⟨s.toList.filter isDig⟩

/-- `clean_num.startswith(('13','14','15','17','18','19'))`. -/
def validPhonePre (s : String) : Bool :=
  s.startsWith "13" || s.startsWith "14" || s.startsWith "15" ||
  s.startsWith "17" || s.startsWith "18" || s.startsWith "19"

/-- The acceptance test of `_load_phone_numbers`: 11 digits with an allowed
two-digit leading sequence. -/
def isValidPhone (s : String) : Bool := s.length = 11 && validPhonePre s

/-- The sanitized candidates of a recipient file, in file order with
duplicates kept: strip each line, drop empty and `#`-comment lines, keep
only digit characters, keep only valid phone numbers. -/
def validCleans (lines : List String) : List String :=
  (((lines.map stripWs).filter
      (fun t => !t.isEmpty && !(t.startsWith "#"))).map cleanDigits).filter
    isValidPhone

/-- `_load_phone_numbers` on the lines of `phonelist.txt`: collect the valid
sanitized numbers into a set and return them sorted ascending
(`sorted(phones)`). -/
def load_phone_numbers (lines : List String) : List String :=
  ((validCleans lines).dedup).mergeSort (fun a b => a ≤ b)

/-- `send_mod_count_sms`, with credentials present and the outcome of each
individual `_send_single_sms` call abstracted as `sendOk`; the loop walks
the loaded list once in order and tallies `(success_count, total)`. -/
def send_mod_count_sms (lines : List String) (sendOk : String → Bool) : Nat × Nat :=
  let phones := load_phone_numbers lines
  if phones.isEmpty then (0, 0)
  else (phones.countP sendOk, phones.length)

/-!
## Ledger lemmas
-/

lemma digitChar_isDig_lt : ∀ k < 10, isDig (Nat.digitChar k) = true := by decide

lemma digitChar_isDig_mod (k : Nat) : isDig (Nat.digitChar (k % 10)) = true :=
  digitChar_isDig_lt _ (Nat.mod_lt _ (by decide))

lemma charVal_digitChar_lt : ∀ k < 10, charVal (Nat.digitChar k) = k := by decide

lemma charVal_digitChar_mod (k : Nat) : charVal (Nat.digitChar (k % 10)) = k % 10 :=
  charVal_digitChar_lt _ (Nat.mod_lt _ (by decide))

lemma daysInMonth_le_31 (y m : Nat) : daysInMonth y m ≤ 31 := by
  unfold daysInMonth
  split <;> [split <;> omega; (split <;> omega)]

lemma takeDigits_append_nondigit (l : List Char) (hl : ∀ c ∈ l, isDig c = true)
    (c : Char) (hc : isDig c = false) (rest : List Char) :
    takeDigits (l ++ c :: rest) = (l, c :: rest) := by
  induction l with
  | nil => simp [takeDigits, hc]
  | cons a t ih =>
    have ha : isDig a = true := hl a (by simp)
    have ht : ∀ x ∈ t, isDig x = true := fun x hx => hl x (by simp [hx])
    simp [takeDigits, ha, ih ht]

lemma takeDigits_all_digits (l : List Char) (hl : ∀ c ∈ l, isDig c = true) :
    takeDigits l = (l, []) := by
  induction l with
  | nil => rfl
  | cons a t ih =>
    have ha : isDig a = true := hl a (by simp)
    have ht : ∀ x ∈ t, isDig x = true := fun x hx => hl x (by simp [hx])
    simp [takeDigits, ha, ih ht]

lemma digits2_all_digits (n : Nat) : ∀ c ∈ digits2 n, isDig c = true := by
  intro c hc
  simp only [digits2, List.mem_cons, List.not_mem_nil, or_false] at hc
  rcases hc with h | h <;> { subst h; exact digitChar_isDig_mod _ }

lemma digits4_all_digits (n : Nat) : ∀ c ∈ digits4 n, isDig c = true := by
  intro c hc
  simp only [digits4, List.mem_cons, List.not_mem_nil, or_false] at hc
  rcases hc with h | h | h | h <;> { subst h; exact digitChar_isDig_mod _ }

lemma digitsVal_digits2 (n : Nat) (h : n < 100) : digitsVal (digits2 n) = n := by
  simp only [digits2, digitsVal, List.foldl, charVal_digitChar_mod]
  omega

lemma digitsVal_digits4 (n : Nat) (h : n < 10000) : digitsVal (digits4 n) = n := by
  simp only [digits4, digitsVal, List.foldl, charVal_digitChar_mod]
  omega

lemma splitRuns_fmtChars (d : Date) :
    splitRuns (fmtChars d) = some (digits4 d.year, digits2 d.month, digits2 d.day) := by
  have hslash : isDig '/' = false := by decide
  unfold splitRuns fmtChars
  rw [takeDigits_append_nondigit _ (digits4_all_digits _) _ hslash]
  simp only []
  rw [takeDigits_append_nondigit _ (digits2_all_digits _) _ hslash]
  simp only []
  rw [takeDigits_all_digits _ (digits2_all_digits _)]

/-- Round-trip: `strptime` parses back exactly the date that
`get_date_str` rendered, for every date the program can produce. -/
lemma strptime_get_date_str (d : Date) (h : ValidDate d) :
    strptime_Ymd (get_date_str d) = some d := by
  obtain ⟨hy1, hy2, hm1, hm2, hd1, hd2⟩ := h
  have hdm31 : d.day ≤ 31 := le_trans hd2 (daysInMonth_le_31 _ _)
  have hlist : (get_date_str d).toList = fmtChars d := rfl
  unfold strptime_Ymd
  rw [hlist, splitRuns_fmtChars]
  simp only [assembleYmd]
  rw [digitsVal_digits2 d.month (by omega), digitsVal_digits2 d.day (by omega),
      digitsVal_digits4 d.year (by omega)]
  have hlen4 : (digits4 d.year).length = 4 := rfl
  have hlen2m : (digits2 d.month).length = 2 := rfl
  have hlen2d : (digits2 d.day).length = 2 := rfl
  simp only [hlen4, hlen2m, hlen2d]
  split
  · rfl
  · rename_i hfalse
    simp only [Bool.and_eq_true, decide_eq_true_eq, and_assoc] at hfalse
    exact absurd ⟨trivial, by omega, by omega, hm1, hm2, by omega, by omega, hd1, hdm31,
      by omega, hd2⟩ hfalse


lemma cmp_str_lookup_eq_ensure (c : CellVal) : cmp_str_lookup c = cmp_str_ensure c := by
  cases c <;> rfl

lemma rowMatchesL_eq_rowMatches (t : String) (r : Row) :
    rowMatchesL t r = rowMatches t r := by
  unfold rowMatchesL rowMatches
  cases r.c1 <;> simp [cmp_str_lookup_eq_ensure]

lemma rowKey_setCount (r : Row) (cnt : Int) : rowKey (setCount r cnt) = rowKey r := rfl

lemma rowMatches_setCount (ds : String) (r : Row) (cnt : Int) :
    rowMatches ds (setCount r cnt) = rowMatches ds r := rfl

lemma rowMatches_iff_rowKey (ds : String) (r : Row) :
    rowMatches ds r = true ↔ rowKey r = some ds := by
  unfold rowMatches rowKey
  cases r.c1 <;> simp

lemma cmp_str_ensure_canonical (d : Date) (h : ValidDate d) :
    cmp_str_ensure (.str (get_date_str d)) = get_date_str d := by
  unfold cmp_str_ensure parsedDate_ensure
  simp [pyStr, strptime_get_date_str d h]

lemma rowKey_mkRow (d : Date) (cnt : Int) (h : ValidDate d) :
    rowKey (mkRow (get_date_str d) cnt) = some (get_date_str d) := by
  unfold rowKey mkRow
  simp [cmp_str_ensure_canonical d h]

lemma rowMatches_mkRow (d : Date) (cnt : Int) (h : ValidDate d) :
    rowMatches (get_date_str d) (mkRow (get_date_str d) cnt) = true :=
  (rowMatches_iff_rowKey _ _).2 (rowKey_mkRow d cnt h)

lemma updateFirst_eq_none_iff (ds : String) (cnt : Int) (rows : List Row) :
    updateFirst ds cnt rows = none ↔ ∀ r ∈ rows, rowMatches ds r = false := by
  induction rows with
  | nil => simp [updateFirst]
  | cons r rs ih =>
    by_cases hr : rowMatches ds r = true
    · simp [updateFirst, hr]
    · rw [Bool.not_eq_true] at hr
      simp only [updateFirst, hr, Bool.false_eq_true, if_false, List.mem_cons]
      constructor
      · intro h x hx
        rcases hx with hx | hx
        · subst hx; exact hr
        · rcases hmatch : updateFirst ds cnt rs with _ | v
          · exact (ih.1 hmatch) x hx
          · rw [hmatch] at h; simp at h
      · intro h
        have : updateFirst ds cnt rs = none := ih.2 (fun x hx => h x (Or.inr hx))
        simp [this]

lemma updateFirst_some_spec (ds : String) (cnt : Int) :
    ∀ rows rows', updateFirst ds cnt rows = some rows' →
    ∃ pre r post, rows = pre ++ r :: post ∧
      rows' = pre ++ setCount r cnt :: post ∧
      (∀ x ∈ pre, rowMatches ds x = false) ∧ rowMatches ds r = true := by
  intro rows
  induction rows with
  | nil => intro rows' h; simp [updateFirst] at h
  | cons r rs ih =>
    intro rows' h
    by_cases hr : rowMatches ds r = true
    · refine ⟨[], r, rs, by simp, ?_, by simp, hr⟩
      simp [updateFirst, hr] at h
      simp [h.symm]
    · rw [Bool.not_eq_true] at hr
      simp only [updateFirst, hr, Bool.false_eq_true, if_false] at h
      rcases hmatch : updateFirst ds cnt rs with _ | v
      · rw [hmatch] at h; simp at h
      · rw [hmatch] at h; simp at h
        obtain ⟨pre, r0, post, h1, h2, h3, h4⟩ := ih v hmatch
        refine ⟨r :: pre, r0, post, by simp [h1], by simp [← h, h2], ?_, h4⟩
        intro x hx
        rcases List.mem_cons.1 hx with hx | hx
        · subst hx; exact hr
        · exact h3 x hx

lemma updateFirst_append_left (ds : String) (cnt : Int) (l1 l2 : List Row)
    (h : ∀ x ∈ l1, rowMatches ds x = false) :
    updateFirst ds cnt (l1 ++ l2) = (updateFirst ds cnt l2).map (l1 ++ ·) := by
  induction l1 with
  | nil => simp
  | cons r rs ih =>
    have hr : rowMatches ds r = false := h r (by simp)
    have hrs : ∀ x ∈ rs, rowMatches ds x = false := fun x hx => h x (by simp [hx])
    simp only [List.cons_append, updateFirst, hr, Bool.false_eq_true, if_false,
      List.append_eq]
    rw [ih hrs]
    rcases h2 : updateFirst ds cnt l2 with _ | v <;> simp [h2]

lemma filterMap_rowKey_updateFirst (ds : String) (cnt : Int) (rows rows' : List Row)
    (h : updateFirst ds cnt rows = some rows') :
    rows'.filterMap rowKey = rows.filterMap rowKey := by
  obtain ⟨pre, r, post, h1, h2, _, _⟩ := updateFirst_some_spec ds cnt rows rows' h
  subst h1; subst h2
  simp [List.filterMap_append, List.filterMap_cons, rowKey_setCount]

lemma length_updateFirst (ds : String) (cnt : Int) (rows rows' : List Row)
    (h : updateFirst ds cnt rows = some rows') : rows'.length = rows.length := by
  obtain ⟨pre, r, post, h1, h2, _, _⟩ := updateFirst_some_spec ds cnt rows rows' h
  subst h1; subst h2
  simp

lemma not_mem_filterMap_rowKey (ds : String) (rows : List Row)
    (h : ∀ r ∈ rows, rowMatches ds r = false) : ds ∉ rows.filterMap rowKey := by
  intro hmem
  obtain ⟨r, hr, hk⟩ := List.mem_filterMap.1 hmem
  have := (rowMatches_iff_rowKey ds r).2 hk
  rw [h r hr] at this
  exact Bool.false_ne_true this

lemma uniqueDates_post_nomatch (pre : List Row) (r : Row) (post : List Row) (ds : String)
    (hu : UniqueDates (pre ++ r :: post)) (hr : rowKey r = some ds) :
    ∀ x ∈ post, rowMatches ds x = false := by
  intro x hx
  unfold UniqueDates at hu
  rw [List.filterMap_append, List.filterMap_cons, hr] at hu
  have hds : ds ∉ post.filterMap rowKey := by
    have h2 := (List.nodup_append.1 hu).2.1
    simp only [List.nodup_cons] at h2
    exact h2.1
  by_contra hcon
  rw [Bool.not_eq_false] at hcon
  exact hds (List.mem_filterMap.2 ⟨x, hx, (rowMatches_iff_rowKey ds x).1 hcon⟩)

lemma lookupTarget_append_nomatch (t : String) (rows : List Row) (x : Row)
    (hx : rowMatchesL t x = false) :
    lookupTarget t (rows ++ [x]) = lookupTarget t rows := by
  induction rows with
  | nil => simp [lookupTarget, hx]
  | cons r rs ih =>
    by_cases hr : rowMatchesL t r = true
    · simp [lookupTarget, hr]
    · rw [Bool.not_eq_true] at hr
      simp [lookupTarget, hr, ih]

lemma lookupTarget_setCount_middle (t ds : String) (cnt : Int)
    (pre : List Row) (r : Row) (post : List Row)
    (hne : ds ≠ t) (hr : rowMatches ds r = true) :
    lookupTarget t (pre ++ setCount r cnt :: post) = lookupTarget t (pre ++ r :: post) := by
  have hkey : rowKey r = some ds := (rowMatches_iff_rowKey ds r).1 hr
  have hnm : rowMatchesL t r = false := by
    rw [rowMatchesL_eq_rowMatches]
    by_contra hcon
    rw [Bool.not_eq_false, rowMatches_iff_rowKey] at hcon
    rw [hcon] at hkey
    exact hne (Option.some.inj hkey).symm
  have hnm2 : rowMatchesL t (setCount r cnt) = false := by
    rw [rowMatchesL_eq_rowMatches, rowMatches_setCount, ← rowMatchesL_eq_rowMatches]
    exact hnm
  induction pre with
  | nil => simp [lookupTarget, hnm, hnm2]
  | cons p ps ih =>
    by_cases hp : rowMatchesL t p = true
    · simp [lookupTarget, hp]
    · rw [Bool.not_eq_true] at hp
      simp [lookupTarget, hp, ih]

lemma lookupTarget_none_of_nomatch (t : String) (rows : List Row)
    (h : ∀ r ∈ rows, rowMatchesL t r = false) : lookupTarget t rows = none := by
  induction rows with
  | nil => rfl
  | cons r rs ih =>
    have hr := h r (by simp)
    simp [lookupTarget, hr, ih (fun x hx => h x (by simp [hx]))]

lemma filter_rowMatches_eq_nil (ds : String) (rows : List Row)
    (h : ∀ r ∈ rows, rowMatches ds r = false) : rows.filter (rowMatches ds) = [] := by
  induction rows with
  | nil => rfl
  | cons r rs ih =>
    simp [List.filter_cons, h r (by simp), ih (fun x hx => h x (by simp [hx]))]

lemma updateFirst_getElem_frame (ds : String) (cnt : Int) :
    ∀ rows rows', updateFirst ds cnt rows = some rows' →
    ∀ (i : Nat) (r : Row), rows[i]? = some r → rowKey r ≠ some ds →
      rows'[i]? = some r := by
  intro rows
  induction rows with
  | nil => intro rows' h; simp [updateFirst] at h
  | cons x xs ih =>
    intro rows' h i r hi hk
    by_cases hx : rowMatches ds x = true
    · simp only [updateFirst, hx, if_true] at h
      obtain rfl := Option.some.inj h
      cases i with
      | zero =>
        simp only [List.getElem?_cons_zero, Option.some.injEq] at hi
        rw [← hi] at hk
        exact absurd ((rowMatches_iff_rowKey ds x).1 hx) hk
      | succ n => simpa using hi
    · rw [Bool.not_eq_true] at hx
      simp only [updateFirst, hx, Bool.false_eq_true, if_false] at h
      rcases h2 : updateFirst ds cnt xs with _ | v
      · rw [h2] at h; simp at h
      · rw [h2] at h
        simp only [Option.some.injEq] at h
        obtain rfl := h
        cases i with
        | zero => simpa using hi
        | succ n =>
          simp only [List.getElem?_cons_succ] at hi ⊢
          exact ih v h2 n r hi hk

lemma getElem?_lt_length {α : Type} (l : List α) (i : Nat) (a : α)
    (h : l[i]? = some a) : i < l.length := by
  by_contra hge
  rw [List.getElem?_eq_none (Nat.le_of_not_lt hge)] at h
  exact Option.noConfusion h

/-- C1 — Uniqueness invariant of the Ledger: starting from any store in
which each canonical date occurs in at most one data row,
`ensure_excel_row` preserves that invariant; a matching row is overwritten
in place (row count unchanged), and a new row is appended exactly when no
existing row normalizes to the target date. -/
theorem ledger_upsert_preserves_uniqueness (d : Date) (cnt : Int) (rows : List Row)
    (hd : ValidDate d) (hu : UniqueDates rows) :
    UniqueDates (upsertRows (get_date_str d) cnt rows) ∧
    ensure_excel_row (Backend.good rows) d cnt =
      Except.ok (Backend.good (upsertRows (get_date_str d) cnt rows)) ∧
    ((∃ r ∈ rows, rowKey r = some (get_date_str d)) →
      (upsertRows (get_date_str d) cnt rows).length = rows.length) ∧
    ((∀ r ∈ rows, rowKey r ≠ some (get_date_str d)) →
      upsertRows (get_date_str d) cnt rows = rows ++ [mkRow (get_date_str d) cnt]) := by
  refine ⟨?_, rfl, ?_, ?_⟩
  · unfold upsertRows
    rcases h : updateFirst (get_date_str d) cnt rows with _ | rows'
    · have hnm := (updateFirst_eq_none_iff (get_date_str d) cnt rows).1 h
      unfold UniqueDates
      rw [List.filterMap_append, List.filterMap_cons, rowKey_mkRow d cnt hd]
      simp only [List.filterMap_nil]
      rw [List.nodup_append]
      refine ⟨hu, List.nodup_singleton _, ?_⟩
      intro a ha hb
      rw [List.mem_singleton] at hb
      subst hb
      exact not_mem_filterMap_rowKey (get_date_str d) rows hnm ha
    · unfold UniqueDates
      rw [filterMap_rowKey_updateFirst (get_date_str d) cnt rows rows' h]
      exact hu
  · rintro ⟨r, hr, hk⟩
    unfold upsertRows
    rcases h : updateFirst (get_date_str d) cnt rows with _ | rows'
    · have hnm := (updateFirst_eq_none_iff (get_date_str d) cnt rows).1 h
      have := (rowMatches_iff_rowKey (get_date_str d) r).2 hk
      rw [hnm r hr] at this
      exact absurd this Bool.false_ne_true
    · exact length_updateFirst (get_date_str d) cnt rows rows' h
  · intro hall
    have hnone : updateFirst (get_date_str d) cnt rows = none :=
      (updateFirst_eq_none_iff _ _ _).2 (fun r hr =>
        Bool.eq_false_iff.2 (fun hc => hall r hr ((rowMatches_iff_rowKey _ _).1 hc)))
    unfold upsertRows
    rw [hnone]

theorem ledger_upsert_preserves_uniqueness_witness :
    UniqueDates (upsertRows (get_date_str ⟨2024, 5, 2⟩) 130
      [mkRow (get_date_str ⟨2024, 5, 1⟩) 100]) :=
  (ledger_upsert_preserves_uniqueness ⟨2024, 5, 2⟩ 130
    [mkRow (get_date_str ⟨2024, 5, 1⟩) 100] (by decide) (by decide)).1

/-- C2 (amended) — Upsert idempotence on stores satisfying the uniqueness
invariant: a second `ensure_excel_row` with the same date and count leaves
the stored rows identical, there is exactly one row for the date and its
count column holds the given count, and the row count is unchanged by the
second application. -/
theorem ledger_upsert_idempotent (d : Date) (cnt : Int) (rows : List Row)
    (hd : ValidDate d) (hu : UniqueDates rows) :
    upsertRows (get_date_str d) cnt (upsertRows (get_date_str d) cnt rows) =
      upsertRows (get_date_str d) cnt rows ∧
    ((upsertRows (get_date_str d) cnt rows).filter
        (rowMatches (get_date_str d))).map Row.c3 = [CellVal.int cnt] ∧
    (upsertRows (get_date_str d) cnt (upsertRows (get_date_str d) cnt rows)).length =
      (upsertRows (get_date_str d) cnt rows).length := by
  have hmk : rowMatches (get_date_str d) (mkRow (get_date_str d) cnt) = true :=
    rowMatches_mkRow d cnt hd
  have hmain : upsertRows (get_date_str d) cnt (upsertRows (get_date_str d) cnt rows) =
      upsertRows (get_date_str d) cnt rows ∧
      ((upsertRows (get_date_str d) cnt rows).filter
        (rowMatches (get_date_str d))).map Row.c3 = [CellVal.int cnt] := by
    rcases h : updateFirst (get_date_str d) cnt rows with _ | rows'
    · have hnm := (updateFirst_eq_none_iff (get_date_str d) cnt rows).1 h
      have hup : upsertRows (get_date_str d) cnt rows = rows ++ [mkRow (get_date_str d) cnt] := by
        unfold upsertRows; rw [h]
      have h2 : updateFirst (get_date_str d) cnt (rows ++ [mkRow (get_date_str d) cnt]) =
          some (rows ++ [mkRow (get_date_str d) cnt]) := by
        rw [updateFirst_append_left (get_date_str d) cnt rows _ hnm]
        simp [updateFirst, hmk]
        rfl
      constructor
      · rw [hup]
        unfold upsertRows
        rw [h2]
      · rw [hup, List.filter_append, filter_rowMatches_eq_nil _ _ hnm]
        simp [List.filter_cons, hmk]
        rfl
    · obtain ⟨pre, r, post, h1, h2, hpre, hr⟩ :=
        updateFirst_some_spec (get_date_str d) cnt rows rows' h
      have hup : upsertRows (get_date_str d) cnt rows = rows' := by
        unfold upsertRows; rw [h]
      have hpost : ∀ x ∈ post, rowMatches (get_date_str d) x = false := by
        apply uniqueDates_post_nomatch pre r post (get_date_str d)
        · rw [← h1]; exact hu
        · exact (rowMatches_iff_rowKey _ _).1 hr
      have hmset : rowMatches (get_date_str d) (setCount r cnt) = true := by
        rw [rowMatches_setCount]; exact hr
      have h2' : updateFirst (get_date_str d) cnt (pre ++ setCount r cnt :: post) =
          some (pre ++ setCount r cnt :: post) := by
        rw [updateFirst_append_left (get_date_str d) cnt pre _ hpre]
        simp [updateFirst, hmset]
        rfl
      constructor
      · rw [hup, h2]
        unfold upsertRows
        rw [h2']
      · rw [hup, h2, List.filter_append, filter_rowMatches_eq_nil _ _ hpre]
        simp only [List.filter_cons, hmset, if_true, filter_rowMatches_eq_nil _ _ hpost,
          List.nil_append]
        rfl
  exact ⟨hmain.1, hmain.2, by rw [hmain.1]⟩

/-- C2 counterexample — on a store violating the uniqueness invariant
(two rows for the same canonical date), applying the upsert twice does not
leave exactly one row for that date with the given count: both duplicate
rows survive. -/
theorem ledger_upsert_idempotent_counterexample :
    ((upsertRows (get_date_str ⟨2024, 5, 1⟩) 7
        (upsertRows (get_date_str ⟨2024, 5, 1⟩) 7
          [mkRow (get_date_str ⟨2024, 5, 1⟩) 100,
           mkRow (get_date_str ⟨2024, 5, 1⟩) 200])).filter
      (rowMatches (get_date_str ⟨2024, 5, 1⟩))).map Row.c3 ≠ [CellVal.int 7] := by
  decide

theorem ledger_upsert_idempotent_witness :
    upsertRows (get_date_str ⟨2024, 5, 1⟩) 100
        (upsertRows (get_date_str ⟨2024, 5, 1⟩) 100 []) =
      upsertRows (get_date_str ⟨2024, 5, 1⟩) 100 [] :=
  (ledger_upsert_idempotent ⟨2024, 5, 1⟩ 100 [] (by decide) (by decide)).1

lemma get_date_str_ne_empty (d : Date) : get_date_str d ≠ "" := by
  intro h
  have h2 : fmtChars d = [] := congrArg String.data h
  simp [fmtChars, digits4] at h2

lemma get_yesterday_count_good_nonempty (rows : List Row) (t : String) (h : t ≠ "") :
    get_yesterday_count (Backend.good rows) (some t) = lookupTarget t rows := by
  show (if t = "" then lookupLast rows else lookupTarget t rows) = lookupTarget t rows
  rw [if_neg h]

/-- C3 (amended) — Strict lookup for nonempty date strings: when the
requested date string is nonempty and no stored row normalizes to it,
`get_yesterday_count` returns `None`, regardless of which other rows
(including a most-recent row) exist. (An empty-string target is falsy at
the `if target_date_str:` test and takes the legacy last-row branch
instead, so the original unrestricted claim fails there.) -/
theorem lookup_strict (rows : List Row) (target : String) (hne : target ≠ "")
    (h : ∀ r ∈ rows, rowKey r ≠ some target) :
    get_yesterday_count (Backend.good rows) (some target) = none := by
  rw [get_yesterday_count_good_nonempty rows target hne]
  apply lookupTarget_none_of_nomatch
  intro r hr
  rw [rowMatchesL_eq_rowMatches]
  exact Bool.eq_false_iff.2 (fun hc => h r hr ((rowMatches_iff_rowKey _ _).1 hc))

/-- C3 counterexample — with the empty string as the requested date string,
no stored row normalizes to the target, yet `get_yesterday_count` takes the
falsy-target branch and returns the most recent row's value instead of an
explicit "not found". -/
theorem lookup_strict_counterexample :
    (∀ r ∈ [mkRow (get_date_str ⟨2024, 5, 1⟩) 100], rowKey r ≠ some "") ∧
    get_yesterday_count (Backend.good [mkRow (get_date_str ⟨2024, 5, 1⟩) 100])
      (some "") = some (some ⟨2024, 5, 1⟩, 100) := by
  refine ⟨by decide, by decide⟩

theorem lookup_strict_witness :
    get_yesterday_count
      (Backend.good [mkRow (get_date_str ⟨2024, 5, 1⟩) 100,
                     mkRow (get_date_str ⟨2024, 5, 3⟩) 130])
      (some (get_date_str ⟨2024, 5, 2⟩)) = none :=
  lookup_strict _ _ (by decide) (by decide)

/-- C8 — Upsert frame property: upserting a count for date `d2` leaves every
row whose canonical date differs from `d2` unchanged in place, and a lookup
for any other canonical date `d1` returns the same result before and after
the upsert. -/
theorem upsert_frame (d1 d2 : Date) (cnt : Int) (rows : List Row)
    (hd2 : ValidDate d2) (hne : get_date_str d1 ≠ get_date_str d2) :
    get_yesterday_count (Backend.good (upsertRows (get_date_str d2) cnt rows))
        (some (get_date_str d1)) =
      get_yesterday_count (Backend.good rows) (some (get_date_str d1)) ∧
    ∀ (i : Nat) (r : Row), rows[i]? = some r → rowKey r ≠ some (get_date_str d2) →
      (upsertRows (get_date_str d2) cnt rows)[i]? = some r := by
  rcases h : updateFirst (get_date_str d2) cnt rows with _ | rows'
  · have hup : upsertRows (get_date_str d2) cnt rows =
        rows ++ [mkRow (get_date_str d2) cnt] := by
      unfold upsertRows; rw [h]
    have hmkL : rowMatchesL (get_date_str d1) (mkRow (get_date_str d2) cnt) = false := by
      rw [rowMatchesL_eq_rowMatches]
      refine Bool.eq_false_iff.2 (fun hc => ?_)
      have := (rowMatches_iff_rowKey _ _).1 hc
      rw [rowKey_mkRow d2 cnt hd2] at this
      exact hne (Option.some.inj this).symm
    constructor
    · rw [get_yesterday_count_good_nonempty _ _ (get_date_str_ne_empty d1),
          get_yesterday_count_good_nonempty _ _ (get_date_str_ne_empty d1), hup]
      exact lookupTarget_append_nomatch _ _ _ hmkL
    · intro i r hi hk
      rw [hup, List.getElem?_append, if_pos (getElem?_lt_length rows i r hi)]
      exact hi
  · obtain ⟨pre, r0, post, h1, h2, hpre, hr0⟩ :=
      updateFirst_some_spec (get_date_str d2) cnt rows rows' h
    have hup : upsertRows (get_date_str d2) cnt rows = rows' := by
      unfold upsertRows; rw [h]
    constructor
    · rw [get_yesterday_count_good_nonempty _ _ (get_date_str_ne_empty d1),
          get_yesterday_count_good_nonempty _ _ (get_date_str_ne_empty d1), hup, h1, h2]
      exact lookupTarget_setCount_middle _ _ cnt pre r0 post
        (fun hc => hne hc.symm) hr0
    · intro i r hi hk
      rw [hup]
      exact updateFirst_getElem_frame (get_date_str d2) cnt rows rows' h i r hi hk

theorem upsert_frame_witness :
    get_yesterday_count
      (Backend.good (upsertRows (get_date_str ⟨2024, 5, 2⟩) 130
        [mkRow (get_date_str ⟨2024, 5, 1⟩) 100]))
      (some (get_date_str ⟨2024, 5, 1⟩)) = some (some ⟨2024, 5, 1⟩, 100) := by
  have h := (upsert_frame ⟨2024, 5, 1⟩ ⟨2024, 5, 2⟩ 130
    [mkRow (get_date_str ⟨2024, 5, 1⟩) 100] (by decide) (by decide)).1
  rw [h]
  decide

/-- C4 — Date normalization: both ledger functions use the same normalizer;
it prefers the native date, then the canonical `strptime` format, then the
generic `fromisoformat` parser, and falls back to the raw stored text; and a
row written for date `d` — stored natively or as canonical text —
normalizes back to `d` on read. -/
theorem date_normalization :
    (∀ c : CellVal, cmp_str_ensure c = cmp_str_lookup c) ∧
    (∀ d : Date, cmp_str_ensure (.date d) = get_date_str d) ∧
    (∀ d : Date, ValidDate d → cmp_str_ensure (.str (get_date_str d)) = get_date_str d) ∧
    (∀ (s : String) (d : Date), strptime_Ymd s = some d →
      cmp_str_ensure (.str s) = get_date_str d) ∧
    (∀ (s : String) (d : Date), strptime_Ymd s = none → fromisoformat s = some d →
      cmp_str_ensure (.str s) = get_date_str d) ∧
    (∀ s : String, strptime_Ymd s = none → fromisoformat s = none →
      cmp_str_ensure (.str s) = s) := by
  refine ⟨fun c => (cmp_str_lookup_eq_ensure c).symm, fun d => rfl,
    fun d h => cmp_str_ensure_canonical d h, ?_, ?_, ?_⟩
  · intro s d h
    unfold cmp_str_ensure parsedDate_ensure
    simp [pyStr, h]
  · intro s d h1 h2
    unfold cmp_str_ensure parsedDate_ensure
    simp [pyStr, h1, h2]
  · intro s h1 h2
    unfold cmp_str_ensure parsedDate_ensure
    simp [pyStr, h1, h2]

theorem date_normalization_witness :
    cmp_str_ensure (.str (get_date_str ⟨2024, 5, 1⟩)) = get_date_str ⟨2024, 5, 1⟩ ∧
    cmp_str_ensure (.str "2024-05-01") = get_date_str ⟨2024, 5, 1⟩ ∧
    cmp_str_ensure (.str "garbage") = "garbage" :=
  ⟨date_normalization.2.2.1 ⟨2024, 5, 1⟩ (by decide),
   date_normalization.2.2.2.2.1 "2024-05-01" ⟨2024, 5, 1⟩ (by decide) (by decide),
   date_normalization.2.2.2.2.2 "garbage" (by decide) (by decide)⟩

/-- C9 counterexample — a corrupt (unreadable) backend does NOT make the
lookup fail: `get_yesterday_count` swallows the exception and returns the
very same "no data" result (`None`) as an empty store, contradicting the
claim that a `LedgerError` is raised and never converted into "no data". -/
theorem ledger_error_counterexample :
    get_yesterday_count Backend.corrupt (some (get_date_str ⟨2024, 5, 1⟩)) = none ∧
    get_yesterday_count (Backend.good []) (some (get_date_str ⟨2024, 5, 1⟩)) = none :=
  ⟨rfl, by decide⟩

/-- C9 (amended) — Errors of the upsert side are fatal: on an unreadable or
corrupt backend `ensure_excel_row` raises, `main` reports the failure toast
and exits non-zero; but the lookup side catches every backend error and
returns the no-data result `None` instead of failing. -/
theorem ledger_error_propagation (d y : Date) (cnt : Int) :
    (∃ e, ensure_excel_row Backend.corrupt d cnt = Except.error e) ∧
    run_main_ledger Backend.corrupt d y cnt = (1, true) ∧
    get_yesterday_count Backend.corrupt (some (get_date_str y)) = none :=
  ⟨⟨"load_workbook raised", rfl⟩, rfl, rfl⟩

lemma parseLoop_cons_none (p : List Char → Option (List Char))
    (ps : List (List Char → Option (List Char))) (l : List Char)
    (h : searchPat p l = none) : parseLoop (p :: ps) l = parseLoop ps l := by
  rw [parseLoop, h]

lemma parseLoop_cons_skip (p : List Char → Option (List Char))
    (ps : List (List Char → Option (List Char))) (l cap : List Char)
    (h : searchPat p l = some cap) (he : (stripNonDigits cap).isEmpty = true) :
    parseLoop (p :: ps) l = parseLoop ps l := by
  rw [parseLoop, h]
  simp [he]

lemma parseLoop_cons_hit (p : List Char → Option (List Char))
    (ps : List (List Char → Option (List Char))) (l cap : List Char)
    (h : searchPat p l = some cap) (he : (stripNonDigits cap).isEmpty = false) :
    parseLoop (p :: ps) l = some (digitsVal (stripNonDigits cap)) := by
  rw [parseLoop, h]
  simp [he]

lemma parseLoop_some_spec (n : Nat) :
    ∀ (ps : List (List Char → Option (List Char))) (l : List Char),
    parseLoop ps l = some n →
    ∃ p cap, p ∈ ps ∧ searchPat p l = some cap ∧ (stripNonDigits cap).isEmpty = false ∧
      n = digitsVal (stripNonDigits cap) := by
  intro ps
  induction ps with
  | nil => intro l h; simp [parseLoop] at h
  | cons p ps ih =>
    intro l h
    rcases hs : searchPat p l with _ | cap
    · rw [parseLoop_cons_none p ps l hs] at h
      obtain ⟨q, cap, hq, h1, h2, h3⟩ := ih l h
      exact ⟨q, cap, by simp [hq], h1, h2, h3⟩
    · rcases he : (stripNonDigits cap).isEmpty with _ | _
      · rw [parseLoop_cons_hit p ps l cap hs he, Option.some.injEq] at h
        exact ⟨p, cap, by simp, hs, he, h.symm⟩
      · rw [parseLoop_cons_skip p ps l cap hs he] at h
        obtain ⟨q, cap2, hq, h1, h2, h3⟩ := ih l h
        exact ⟨q, cap2, by simp [hq], h1, h2, h3⟩

/-- C5 (amended) — Extractor priority with digit screening: among the three
ordered patterns, the first one that matches AND whose captured substring
still contains a digit after stripping non-digits determines the result; a
pattern match whose capture strips to the empty string is skipped and the
later patterns are tried. -/
theorem extractor_priority (html : String) :
    (∀ cap, search_pat1 html = some cap → (stripNonDigits cap).isEmpty = false →
      parse_workshop_mod_count html = some (digitsVal (stripNonDigits cap))) ∧
    (∀ cap, (search_pat1 html = none ∨
        (∃ c1, search_pat1 html = some c1 ∧ (stripNonDigits c1).isEmpty = true)) →
      search_pat2 html = some cap → (stripNonDigits cap).isEmpty = false →
      parse_workshop_mod_count html = some (digitsVal (stripNonDigits cap))) ∧
    (∀ cap, (search_pat1 html = none ∨
        (∃ c1, search_pat1 html = some c1 ∧ (stripNonDigits c1).isEmpty = true)) →
      (search_pat2 html = none ∨
        (∃ c2, search_pat2 html = some c2 ∧ (stripNonDigits c2).isEmpty = true)) →
      search_pat3 html = some cap → (stripNonDigits cap).isEmpty = false →
      parse_workshop_mod_count html = some (digitsVal (stripNonDigits cap))) := by
  refine ⟨?_, ?_, ?_⟩
  · intro cap h1 hne
    unfold parse_workshop_mod_count
    rw [parseLoop_cons_hit _ _ _ cap h1 hne]
  · intro cap h1 h2 hne
    unfold parse_workshop_mod_count
    rcases h1 with h1 | ⟨c1, hc1, hc1e⟩
    · rw [parseLoop_cons_none _ _ _ h1, parseLoop_cons_hit _ _ _ cap h2 hne]
    · rw [parseLoop_cons_skip _ _ _ c1 hc1 hc1e, parseLoop_cons_hit _ _ _ cap h2 hne]
  · intro cap h1 h2 h3 hne
    unfold parse_workshop_mod_count
    rcases h1 with h1 | ⟨c1, hc1, hc1e⟩ <;>
      rcases h2 with h2 | ⟨c2, hc2, hc2e⟩
    · rw [parseLoop_cons_none _ _ _ h1, parseLoop_cons_none _ _ _ h2,
          parseLoop_cons_hit _ _ _ cap h3 hne]
    · rw [parseLoop_cons_none _ _ _ h1, parseLoop_cons_skip _ _ _ c2 hc2 hc2e,
          parseLoop_cons_hit _ _ _ cap h3 hne]
    · rw [parseLoop_cons_skip _ _ _ c1 hc1 hc1e, parseLoop_cons_none _ _ _ h2,
          parseLoop_cons_hit _ _ _ cap h3 hne]
    · rw [parseLoop_cons_skip _ _ _ c1 hc1 hc1e, parseLoop_cons_skip _ _ _ c2 hc2 hc2e,
          parseLoop_cons_hit _ _ _ cap h3 hne]

/-- C5 counterexample — the first pattern matches this text (capturing
`,.`), yet the parser's result 25 comes from the second pattern, because the
first capture strips to no digits at all; so "the FIRST matching pattern's
captured numeric substring" does not determine the result as claimed. -/
theorem extractor_priority_counterexample :
    search_pat1 "See all ,. Mods and Showing 1 of 25 entries" = some [',', '.'] ∧
    stripNonDigits [',', '.'] = [] ∧
    parse_workshop_mod_count "See all ,. Mods and Showing 1 of 25 entries" = some 25 := by
  refine ⟨by decide, by decide, by decide⟩

theorem extractor_priority_witness :
    parse_workshop_mod_count "See all 1,234 Mods" = some 1234 :=
  (extractor_priority "See all 1,234 Mods").1 ['1', ',', '2', '3', '4']
    (by decide) (by decide)

/-- C6 — Extractor failure behavior: when none of the three patterns
matches, the parser signals the error (`ValueError`, modelled as `none`)
rather than returning any fallback value; and conversely every returned
value is the digit content of some matched pattern's capture. -/
theorem extractor_failure (html : String) :
    ((search_pat1 html = none ∧ search_pat2 html = none ∧ search_pat3 html = none) →
      parse_workshop_mod_count html = none) ∧
    (∀ n, parse_workshop_mod_count html = some n →
      ∃ cap, (search_pat1 html = some cap ∨ search_pat2 html = some cap ∨
          search_pat3 html = some cap) ∧
        (stripNonDigits cap).isEmpty = false ∧ n = digitsVal (stripNonDigits cap)) := by
  constructor
  · rintro ⟨h1, h2, h3⟩
    unfold parse_workshop_mod_count
    rw [parseLoop_cons_none _ _ _ h1, parseLoop_cons_none _ _ _ h2,
        parseLoop_cons_none _ _ _ h3]
    rfl
  · intro n hn
    obtain ⟨p, cap, hp, h1, h2, h3⟩ := parseLoop_some_spec n _ _ hn
    refine ⟨cap, ?_, h2, h3⟩
    simp only [List.mem_cons, List.not_mem_nil, or_false] at hp
    rcases hp with rfl | rfl | rfl
    · exact Or.inl h1
    · exact Or.inr (Or.inl h1)
    · exact Or.inr (Or.inr h1)

theorem extractor_failure_witness :
    parse_workshop_mod_count "hello world" = none :=
  (extractor_failure "hello world").1 ⟨by decide, by decide, by decide⟩

lemma isSub_refl (s : String) : IsSub s s := ⟨"", "", by simp⟩

lemma isSub_append_left (a : String) {n h : String} (hs : IsSub n h) :
    IsSub n (a ++ h) := by
  obtain ⟨x, y, rfl⟩ := hs
  exact ⟨a ++ x, y, by simp [String.append_assoc]⟩

lemma isSub_append_right (b : String) {n h : String} (hs : IsSub n h) :
    IsSub n (h ++ b) := by
  obtain ⟨x, y, rfl⟩ := hs
  exact ⟨x, y ++ b, by simp [String.append_assoc]⟩

lemma isSub_msg_head_date (today : Date) (count : Int) :
    IsSub (cn_today_str today) (msg_head today count) := by
  unfold msg_head
  exact ⟨"", cn_comma ++ game_quoted ++ cn_workshop ++ cn_market ++ cn_of ++ "Mod" ++
    cn_total_num_is ++ toString count ++ cn_unit, by simp [String.append_assoc]⟩

lemma isSub_msg_head_game (today : Date) (count : Int) :
    IsSub game_quoted (msg_head today count) := by
  unfold msg_head
  exact ⟨cn_today_str today ++ cn_comma, cn_workshop ++ cn_market ++ cn_of ++ "Mod" ++
    cn_total_num_is ++ toString count ++ cn_unit, by simp [String.append_assoc]⟩

lemma isSub_msg_head_count (today : Date) (count : Int) :
    IsSub (toString count) (msg_head today count) := by
  unfold msg_head
  exact ⟨cn_today_str today ++ cn_comma ++ game_quoted ++ cn_workshop ++ cn_market ++
    cn_of ++ "Mod" ++ cn_total_num_is, cn_unit, by simp [String.append_assoc]⟩

lemma build_msg_head_prefix (today : Date) (yday : Nat) (count : Int)
    (ycount : Option Int) :
    ∃ tail, build_msg today yday count ycount = msg_head today count ++ tail := by
  rcases ycount with _ | y
  · exact ⟨cn_excl, rfl⟩
  · simp only [build_msg]
    by_cases hpos : 0 ≤ count - y
    · rw [if_pos hpos]
      exact ⟨cn_comma ++ cn_yesterday ++ toString yday ++ cn_hao ++ cn_lparen ++
        toString y ++ cn_unit ++ cn_rparen ++ cn_more ++ toString (count - y) ++
        cn_unit ++ cn_excl, by simp [String.append_assoc]⟩
    · rw [if_neg hpos]
      exact ⟨cn_comma ++ cn_yesterday ++ toString yday ++ cn_hao ++ cn_lparen ++
        toString y ++ cn_unit ++ cn_rparen ++ cn_less ++ toString (-(count - y)) ++
        cn_unit ++ cn_excl, by simp [String.append_assoc]⟩

/-- C7 — Delta message case analysis: the summary always contains the date,
the quoted subject label and today's count; with a yesterday count and
`diff = count - ycount ≥ 0` (including 0) it contains the increase wording
with magnitude `diff`, with `diff < 0` the decrease wording with magnitude
`|diff|`; without a yesterday count the message is exactly the head plus the
exclamation mark — the comparison clause is omitted entirely and the
(total) function raises nothing. -/
theorem delta_message (today : Date) (yday : Nat) (count : Int) (ycount : Option Int) :
    IsSub (cn_today_str today) (build_msg today yday count ycount) ∧
    IsSub game_quoted (build_msg today yday count ycount) ∧
    IsSub (toString count) (build_msg today yday count ycount) ∧
    (∀ y, ycount = some y → 0 ≤ count - y →
      IsSub (cn_more ++ toString (count - y) ++ cn_unit)
        (build_msg today yday count ycount)) ∧
    (∀ y, ycount = some y → count - y < 0 →
      IsSub (cn_less ++ toString (-(count - y)) ++ cn_unit)
        (build_msg today yday count ycount)) ∧
    (ycount = none → build_msg today yday count ycount = msg_head today count ++ cn_excl) := by
  obtain ⟨tail, htail⟩ := build_msg_head_prefix today yday count ycount
  refine ⟨?_, ?_, ?_, ?_, ?_, ?_⟩
  · rw [htail]; exact isSub_append_right _ (isSub_msg_head_date today count)
  · rw [htail]; exact isSub_append_right _ (isSub_msg_head_game today count)
  · rw [htail]; exact isSub_append_right _ (isSub_msg_head_count today count)
  · rintro y rfl hpos
    simp only [build_msg]
    rw [if_pos hpos]
    exact ⟨msg_head today count ++ cn_comma ++ cn_yesterday ++ toString yday ++
      cn_hao ++ cn_lparen ++ toString y ++ cn_unit ++ cn_rparen, cn_excl,
      by simp [String.append_assoc]⟩
  · rintro y rfl hneg
    simp only [build_msg]
    rw [if_neg (not_le.2 hneg)]
    exact ⟨msg_head today count ++ cn_comma ++ cn_yesterday ++ toString yday ++
      cn_hao ++ cn_lparen ++ toString y ++ cn_unit ++ cn_rparen, cn_excl,
      by simp [String.append_assoc]⟩
  · rintro rfl
    rfl

theorem delta_message_witness :
    IsSub (cn_more ++ toString ((130 : Int) - 100) ++ cn_unit)
      (build_msg ⟨2024, 5, 2⟩ 1 130 (some 100)) ∧
    build_msg ⟨2024, 5, 2⟩ 1 130 none = msg_head ⟨2024, 5, 2⟩ 130 ++ cn_excl :=
  ⟨(delta_message ⟨2024, 5, 2⟩ 1 130 (some 100)).2.2.2.1 100 rfl (by decide),
   (delta_message ⟨2024, 5, 2⟩ 1 130 none).2.2.2.2.2 rfl⟩

lemma string_le_trans_bool (a b c : String) :
    (fun x y : String => (x ≤ y : Bool)) a b = true →
    (fun x y : String => (x ≤ y : Bool)) b c = true →
    (fun x y : String => (x ≤ y : Bool)) a c = true := by
  intro hab hbc
  simp only [decide_eq_true_eq] at hab hbc ⊢
  exact le_trans hab hbc

lemma string_le_total_bool (a b : String) :
    ((fun x y : String => (x ≤ y : Bool)) a b ||
     (fun x y : String => (x ≤ y : Bool)) b a) = true := by
  simp only [Bool.or_eq_true, decide_eq_true_eq]
  exact le_total a b

/-- C10 — Recipient loading and fan-out: the loaded list is duplicate-free
and sorted ascending, its members are exactly the sanitized (digits-only)
forms of the kept lines that pass the 11-digit/allowed-prefix test, every
member passes that test, and the `total` reported by `send_mod_count_sms`
equals the number of DISTINCT valid numbers in the file. -/
theorem sms_recipients (lines : List String) (sendOk : String → Bool) :
    (load_phone_numbers lines).Nodup ∧
    List.Sorted (· ≤ ·) (load_phone_numbers lines) ∧
    (∀ x, x ∈ load_phone_numbers lines ↔ x ∈ validCleans lines) ∧
    (∀ x ∈ load_phone_numbers lines, isValidPhone x = true) ∧
    (send_mod_count_sms lines sendOk).2 = ((validCleans lines).dedup).length := by
  have hperm : ((validCleans lines).dedup.mergeSort (fun a b => a ≤ b)).Perm
      ((validCleans lines).dedup) :=
    List.mergeSort_perm ((validCleans lines).dedup) _
  have hmem : ∀ x, x ∈ load_phone_numbers lines ↔ x ∈ validCleans lines := by
    intro x
    unfold load_phone_numbers
    rw [hperm.mem_iff, List.mem_dedup]
  refine ⟨?_, ?_, hmem, ?_, ?_⟩
  · exact hperm.nodup_iff.2 (List.nodup_dedup _)
  · have hs := List.sorted_mergeSort string_le_trans_bool string_le_total_bool
      ((validCleans lines).dedup)
    unfold load_phone_numbers
    exact hs.imp (fun h => by simpa using h)
  · intro x hx
    have := (hmem x).1 hx
    unfold validCleans at this
    exact (List.mem_filter.1 this).2
  · unfold send_mod_count_sms
    rcases he : (load_phone_numbers lines).isEmpty with _ | _
    · simp only [he, Bool.false_eq_true, if_false]
      show (load_phone_numbers lines).length = _
      unfold load_phone_numbers
      exact hperm.length_eq
    · simp only [he, if_true]
      show (0 : Nat) = _
      have h0 : (load_phone_numbers lines).length = 0 := by
        rw [List.isEmpty_iff] at he
        simp [he]
      have := hperm.length_eq
      unfold load_phone_numbers at h0
      omega
